import Mathlib

/-!
Verification of the two helper programs of the claw-cash enclave core:

* `nsm-ioctl.c` (AttestationRequestProxy): reads a bounded request from
  standard input, performs one ioctl against the NSM device, writes the
  reported response to standard output.
* `vsock-connect.c` (DuplexStreamBridge): connects a vsock endpoint and
  relays bytes between the standard streams and the socket.

Both programs interact with the OS through `read`, `write`, `open`,
`ioctl`, `poll`, `socket` and `connect`.  The embedding makes those
interactions explicit: every OS call result the program branches on is an
input of the Lean function modelling the code path, so a run of the model
is one possible execution of the C program.  Byte values are `Nat`
(0..255, the value range never matters to the control flow), and byte
counts returned by `read`/`write` are `Nat` with `0` standing for a
result `<= 0` wherever the source collapses the two (the source never
distinguishes an error return from end-of-file except where modelled
separately below).
-/

namespace ClawCash

/-! ## nsm-ioctl.c — AttestationRequestProxy -/

def MAX_REQUEST : Nat := 4096

def MAX_RESPONSE : Nat := 16384

/-- The stdin read loop of `main` (nsm-ioctl.c lines 51-56):
`while ((n = read(STDIN_FILENO, req_buf + req_len, MAX_REQUEST - req_len)) > 0) req_len += n;`.
`stdinLen` is the total number of bytes standard input will ever deliver;
since every byte read so far went into the buffer, the bytes remaining on
stdin are `stdinLen - reqLen`.  `chunks` is the oracle of OS read results:
entry `c` means the OS would hand over up to `c` bytes on that call, so
the call actually returns `min c (min capacity remaining)`; a result of
`0` (capacity exhausted, end of input, or an error return, all of which
the source treats as `n <= 0`) ends the loop. -/
def readLoop : List Nat → Nat → Nat → Nat
  | [], _, reqLen => reqLen
  | c :: cs, stdinLen, reqLen =>
    let n := min (min c (MAX_REQUEST - reqLen)) (stdinLen - reqLen)
    if n = 0 then reqLen else readLoop cs stdinLen (reqLen + n)

/-- The value of `req_len` at every iteration of the stdin read loop,
including the final value when the loop exits. -/
def readLoopStates : List Nat → Nat → Nat → List Nat
  | [], _, reqLen => [reqLen]
  | c :: cs, stdinLen, reqLen =>
    let n := min (min c (MAX_REQUEST - reqLen)) (stdinLen - reqLen)
    if n = 0 then [reqLen] else reqLen :: readLoopStates cs stdinLen (reqLen + n)

/-- The stdout write loop of `main` (nsm-ioctl.c lines 78-84), also the
shape of both forwarding loops of vsock-connect.c (lines 67-72 and
80-85): `while (written < len) { w = write(fd, buf + written, len - written); if (w <= 0) die(...); written += w; }`.
`ws` is the oracle of write results: entry `w` means the call delivers
`min w (len - written)` bytes (`write` never reports more than asked),
and a delivered count of `0` models the `w <= 0` error return that aborts
via `die`.  Returns the bytes actually written (always an initial segment
of `resp`) and whether the loop completed.  An exhausted oracle with
bytes still unwritten is an error result: a real run performs one more
call, so its oracle is longer. -/
def writeLoop (resp : List Nat) : Nat → List Nat → List Nat × Bool
  | written, [] =>
    if resp.length ≤ written then (resp.take written, true) else (resp.take written, false)
  | written, w :: ws =>
    if resp.length ≤ written then (resp.take written, true)
    else
      let n := min w (resp.length - written)
      if n = 0 then (resp.take written, false)
      else writeLoop resp (written + n) ws

/-- Observable outcome of one run of nsm-ioctl.c `main`:
exit status, bytes written to standard output, whether
`open("/dev/nsm")` was attempted, and the `request_len` passed to the
ioctl (`none` when no ioctl was issued). -/
structure ProxyRun where
  exitCode : Nat
  out : List Nat
  openedDevice : Bool
  ioctlReqLen : Option Nat
deriving DecidableEq

/-- `main` of nsm-ioctl.c (lines 48-87).  Oracle arguments: `stdinLen`
and `chunks` drive the read loop, `openOk` is the result of
`open(NSM_DEV_PATH, O_RDWR)`, `ioctlResp` is `none` when the ioctl
returns an error and `some resp` when it succeeds with `response_len =
resp.length` and response bytes `resp`, and `ws` drives the stdout write
loop.  Paths: `req_len <= 0` prints "empty request" and returns 1 before
the device is touched; a failed open dies before the ioctl; a failed
ioctl dies before any output; otherwise the response is written and the
run exits 0 unless a write fails. -/
def nsmMain (stdinLen : Nat) (chunks : List Nat) (openOk : Bool)
    (ioctlResp : Option (List Nat)) (ws : List Nat) : ProxyRun :=
  let reqLen := readLoop chunks stdinLen 0
  if reqLen = 0 then ⟨1, [], false, none⟩
  else if openOk = false then ⟨1, [], true, none⟩
  else
    match ioctlResp with
    | none => ⟨1, [], true, some reqLen⟩
    | some resp =>
      let p := writeLoop resp 0 ws
      if p.2 then ⟨0, p.1, true, some reqLen⟩ else ⟨1, p.1, true, some reqLen⟩

/-! ## vsock-connect.c — DuplexStreamBridge -/

/-- `isspace` of the C locale, as used by `strtol`. -/
def isSpaceC (c : Char) : Bool :=
  c = ' ' || c = '\t' || c = '\n' || c = '\x0b' || c = '\x0c' || c = '\r'

def isDigitC (c : Char) : Bool :=
  '0' ≤ c && c ≤ '9'

/-- Accumulate the value of the leading run of decimal digits; stops at
the first non-digit, exactly as `strtol` consumes its digit run. -/
def digitsVal : List Char → Nat → Nat
  | [], acc => acc
  | c :: cs, acc => if isDigitC c then digitsVal cs (acc * 10 + (c.toNat - 48)) else acc

def LONG_MAX : Int := 2 ^ 63 - 1

def LONG_MIN : Int := -(2 ^ 63)

/-- `strtol` clamps an out-of-range value to `LONG_MAX` / `LONG_MIN`
(LP64 widths). -/
def clampLong (x : Int) : Int :=
  if x > LONG_MAX then LONG_MAX else if x < LONG_MIN then LONG_MIN else x

/-- Conversion of the `long` to `int` inside `atoi` (gcc: reduce modulo
2^32 into the signed 32-bit range). -/
def wrapInt (x : Int) : Int :=
  (x + 2 ^ 31) % 2 ^ 32 - 2 ^ 31

/-- The sign-and-digits part of `strtol(s, NULL, 10)` after whitespace
has been skipped: an optional single `-` or `+`, then the digit run
(empty digit run gives 0). -/
def atoiSigned : List Char → Int
  | [] => 0
  | c :: rest =>
    if c = '-' then -(digitsVal rest 0 : Int)
    else if c = '+' then (digitsVal rest 0 : Int)
    else (digitsVal (c :: rest) 0 : Int)

/-- C `atoi` as `(int)strtol(s, NULL, 10)` (glibc): skip whitespace,
parse an optional sign and the digit run, clamp to `long` range, convert
to `int`. -/
def atoi (s : List Char) : Int :=
  wrapInt (clampLong (atoiSigned (s.dropWhile isSpaceC)))

/-- The cast `(unsigned int)` applied to the `atoi` result
(vsock-connect.c lines 37-38): reduce modulo 2^32. -/
def uintCast (x : Int) : Nat :=
  (x % 2 ^ 32).toNat

/-- The input after whitespace and one optional sign character — the
position where `strtol` looks for digits. -/
def signStripped : List Char → List Char
  | [] => []
  | c :: rest => if c = '-' || c = '+' then rest else c :: rest

/-- The digit run `strtol` would consume.  Empty iff the argument is
non-numeric (no digits after optional whitespace and sign). -/
def leadingDigits (s : List Char) : List Char :=
  (signStripped (s.dropWhile isSpaceC)).takeWhile isDigitC

/-- Outcome of the code before the bridge loop (vsock-connect.c lines
32-50): argument check, `atoi` conversions, `socket`, `connect`. -/
inductive SetupResult
  | usageError
  | socketFail
  | connectFail (cid port : Nat)
  | connected (cid port : Nat)
deriving DecidableEq

/-- vsock-connect.c lines 32-50.  `argv` is the full argument vector
including the program name (`argc = argv.length`); `sockOk` and `connOk`
are the results of `socket(AF_VSOCK, SOCK_STREAM, 0)` and
`connect(sock, ...)`.  `argc != 3` prints usage and returns 1 before any
socket exists; otherwise both arguments go through
`(unsigned int)atoi(...)` and the connection is attempted at the
resulting (cid, port). -/
def bridgeSetup (argv : List String) (sockOk connOk : Bool) : SetupResult :=
  match argv with
  | [_, a1, a2] =>
    let cid := uintCast (atoi a1.data)
    let port := uintCast (atoi a2.data)
    if sockOk = false then .socketFail
    else if connOk = false then .connectFail cid port
    else .connected cid port
  | _ => .usageError

/-- Result of one `read(2)` call in the bridge: `failure` is a negative
return, `bytes data` is a return of `data.length` (so `bytes []` is the
zero return at end of input).  The source only ever tests `n <= 0`,
which here is `failure` or `bytes []`. -/
inductive ReadRes
  | failure
  | bytes (data : List Nat)
deriving DecidableEq

/-- Bridge loop state: `stdinOpen` is `fds[0].fd != -1` (poll ignores a
negative fd, so a half-closed bridge never sees stdin readiness again);
`sockSent` and `outBytes` accumulate the bytes forwarded to the socket
and to standard output; `wrShutdown` records whether
`shutdown(sock, SHUT_WR)` was issued. -/
structure BridgeState where
  stdinOpen : Bool
  sockSent : List Nat
  outBytes : List Nat
  wrShutdown : Bool
deriving DecidableEq

def bridgeInit : BridgeState :=
  ⟨true, [], [], false⟩

/-- One iteration of the poll loop, as reported by the OS:
`stdinReady` is `fds[0].revents & POLLIN` as poll would report it for a
live descriptor, `sockReady` is `fds[1].revents & (POLLIN | POLLHUP)`;
`stdinRead` / `sockRead` are the results the corresponding `read` call
would return if made; `sockWrites` / `outWrites` are the write-result
oracles for the two forwarding loops of the iteration. -/
structure BridgeEvent where
  stdinReady : Bool
  sockReady : Bool
  stdinRead : ReadRes
  sockRead : ReadRes
  sockWrites : List Nat
  outWrites : List Nat
deriving DecidableEq

/-- Outcome of running the bridge loop on a finite list of iterations:
still inside the loop (`running`), left via `break` — the source then
does `close(sock); return 0` (`exit0`), or aborted in `die` after a
failed forward (`writeFailure`, exit status 1). -/
inductive BridgeOutcome
  | running (st : BridgeState)
  | exit0 (st : BridgeState)
  | writeFailure (st : BridgeState)
deriving DecidableEq

def halfClose (st : BridgeState) : BridgeState :=
  { st with stdinOpen := false, wrShutdown := true }

/-- The stdin-to-socket half of an iteration (vsock-connect.c lines
63-74).  The branch runs only when poll reported stdin readiness, which
requires `fds[0].fd != -1`.  `n <= 0` performs
`shutdown(sock, SHUT_WR); fds[0].fd = -1;` and the loop continues; a
positive read is forwarded with the write loop, a failed write dies. -/
def stdinPhase (st : BridgeState) (ev : BridgeEvent) : BridgeOutcome :=
  if ev.stdinReady && st.stdinOpen then
    match ev.stdinRead with
    | .failure => .running (halfClose st)
    | .bytes data =>
      if data.length = 0 then .running (halfClose st)
      else if (writeLoop data 0 ev.sockWrites).2 = true then
        .running { st with sockSent := st.sockSent ++ (writeLoop data 0 ev.sockWrites).1 }
      else .writeFailure { st with sockSent := st.sockSent ++ (writeLoop data 0 ev.sockWrites).1 }
  else .running st

/-- The socket-to-stdout half of an iteration (vsock-connect.c lines
77-86).  `n <= 0` is `break` — the whole loop ends and the process
exits 0; a positive read is forwarded to standard output, a failed
write dies. -/
def sockPhase (st : BridgeState) (ev : BridgeEvent) : BridgeOutcome :=
  if ev.sockReady then
    match ev.sockRead with
    | .failure => .exit0 st
    | .bytes data =>
      if data.length = 0 then .exit0 st
      else if (writeLoop data 0 ev.outWrites).2 = true then
        .running { st with outBytes := st.outBytes ++ (writeLoop data 0 ev.outWrites).1 }
      else .writeFailure { st with outBytes := st.outBytes ++ (writeLoop data 0 ev.outWrites).1 }
  else .running st

/-- One full iteration of the main loop
(vsock-connect.c lines 58-87): the stdin branch runs first; if it died,
the socket branch never runs in that iteration. -/
def bridgeStep (st : BridgeState) (ev : BridgeEvent) : BridgeOutcome :=
  match stdinPhase st ev with
  | .running st1 => sockPhase st1 ev
  | out => out

/-- The bridge loop over a finite list of poll iterations; once the loop
has exited (break or die), later iterations never happen. -/
def bridgeLoop : BridgeState → List BridgeEvent → BridgeOutcome
  | st, [] => .running st
  | st, ev :: evs =>
    match bridgeStep st ev with
    | .running st1 => bridgeLoop st1 evs
    | out => out

def outcomeState : BridgeOutcome → BridgeState
  | .running st => st
  | .exit0 st => st
  | .writeFailure st => st

/-- Exit status of the process once the loop has ended: `break` leads to
`close(sock); return 0`, `die` exits 1; `none` while still looping. -/
def outcomeCode : BridgeOutcome → Option Nat
  | .running _ => none
  | .exit0 _ => some 0
  | .writeFailure _ => some 1

/-- The iteration observed the remote end closed: poll reported the
socket (readable or hang-up) and the socket read came back `n <= 0`. -/
def remoteClosed (ev : BridgeEvent) : Prop :=
  ev.sockReady = true ∧ (ev.sockRead = .failure ∨ ev.sockRead = .bytes [])

/-- The read produced data (`n > 0`). -/
def readPositive : ReadRes → Bool
  | .failure => false
  | .bytes data => !data.isEmpty

/-- The data of a positive read, `[]` otherwise. -/
def chunkOf : ReadRes → List Nat
  | .failure => []
  | .bytes data => data

/-- Every read the iteration performs is positive and its forwarding
loop delivers the whole chunk. -/
def evFull (ev : BridgeEvent) : Bool :=
  (!ev.stdinReady ||
    (readPositive ev.stdinRead &&
      decide (writeLoop (chunkOf ev.stdinRead) 0 ev.sockWrites = (chunkOf ev.stdinRead, true)))) &&
  (!ev.sockReady ||
    (readPositive ev.sockRead &&
      decide (writeLoop (chunkOf ev.sockRead) 0 ev.outWrites = (chunkOf ev.sockRead, true))))

/-- Concatenation of the chunks the bridge reads from standard input, in
iteration order. -/
def stdinBytesOf : List BridgeEvent → List Nat
  | [] => []
  | ev :: evs => (if ev.stdinReady then chunkOf ev.stdinRead else []) ++ stdinBytesOf evs

/-- Concatenation of the chunks the bridge reads from the socket, in
iteration order. -/
def sockBytesOf : List BridgeEvent → List Nat
  | [] => []
  | ev :: evs => (if ev.sockReady then chunkOf ev.sockRead else []) ++ sockBytesOf evs

/-! ## Lemmas about the AttestationRequestProxy read and write loops -/

theorem readLoop_le (chunks : List Nat) (stdinLen : Nat) :
    ∀ reqLen, reqLen ≤ MAX_REQUEST → readLoop chunks stdinLen reqLen ≤ MAX_REQUEST := by
  induction chunks with
  | nil => intro reqLen h; simpa [readLoop] using h
  | cons c cs ih =>
    intro reqLen h
    simp only [readLoop]
    split
    · exact h
    · exact ih _ (by simp only [MAX_REQUEST] at *; omega)

theorem readLoopStates_le (chunks : List Nat) (stdinLen : Nat) :
    ∀ reqLen, reqLen ≤ MAX_REQUEST →
      ∀ s ∈ readLoopStates chunks stdinLen reqLen, s ≤ MAX_REQUEST := by
  induction chunks with
  | nil => intro reqLen h s hs; simp [readLoopStates] at hs; omega
  | cons c cs ih =>
    intro reqLen h s hs
    simp only [readLoopStates] at hs
    split at hs
    · simp at hs; omega
    · rcases List.mem_cons.mp hs with rfl | hs
      · exact h
      · exact ih _ (by simp only [MAX_REQUEST] at *; omega) s hs

theorem readLoop_complete (chunks : List Nat) (stdinLen : Nat) :
    ∀ reqLen, (∀ c ∈ chunks, 1 ≤ c) → stdinLen ≤ MAX_REQUEST → reqLen ≤ stdinLen →
      stdinLen ≤ chunks.length + reqLen → readLoop chunks stdinLen reqLen = stdinLen := by
  induction chunks with
  | nil => intro reqLen _ _ h1 h2; simp only [readLoop]; simp at h2; omega
  | cons c cs ih =>
    intro reqLen hc hmax hle hlen
    have hc1 : 1 ≤ c := hc c (List.mem_cons_self c cs)
    simp only [readLoop]
    split
    · rename_i hn
      simp only [MAX_REQUEST] at *
      omega
    · rename_i hn
      refine ih _ (fun x hx => hc x (List.mem_cons_of_mem _ hx)) hmax ?_ ?_ <;>
        simp only [MAX_REQUEST] at * <;> simp only [List.length_cons] at hlen <;> omega

theorem writeLoop_complete (resp : List Nat) :
    ∀ ws written, (∀ w ∈ ws, 1 ≤ w) → resp.length ≤ written + ws.length →
      written ≤ resp.length → writeLoop resp written ws = (resp, true) := by
  intro ws
  induction ws with
  | nil =>
    intro written _ h1 h2
    simp only [writeLoop]
    simp at h1
    have : written = resp.length := by omega
    subst this
    simp
  | cons w ws ih =>
    intro written hw h1 h2
    have hw1 : 1 ≤ w := hw w (List.mem_cons_self w ws)
    simp only [writeLoop]
    split
    · rename_i h
      have : written = resp.length := by omega
      subst this
      simp
    · rename_i h
      split
      · rename_i hn; omega
      · rename_i hn
        refine ih _ (fun x hx => hw x (List.mem_cons_of_mem _ hx)) ?_ ?_ <;>
          simp only [List.length_cons] at h1 <;> omega

theorem writeLoop_out_take (resp : List Nat) :
    ∀ ws written, ∃ k, (writeLoop resp written ws).1 = resp.take k := by
  intro ws
  induction ws with
  | nil => intro written; simp only [writeLoop]; split <;> exact ⟨written, rfl⟩
  | cons w ws ih =>
    intro written
    simp only [writeLoop]
    split
    · exact ⟨written, rfl⟩
    · split
      · exact ⟨written, rfl⟩
      · exact ih _

theorem writeLoop_success_out (resp : List Nat) :
    ∀ ws written, written ≤ resp.length → (writeLoop resp written ws).2 = true →
      (writeLoop resp written ws).1 = resp := by
  intro ws
  induction ws with
  | nil =>
    intro written hle
    simp only [writeLoop]
    split
    · intro _
      rename_i h
      have : written = resp.length := by omega
      subst this
      simp
    · simp
  | cons w ws ih =>
    intro written hle
    simp only [writeLoop]
    split
    · intro _
      rename_i h
      have : written = resp.length := by omega
      subst this
      simp
    · split
      · simp
      · rename_i h hn
        exact ih _ (by omega)

/-! ## Claim theorems for nsm-ioctl.c -/

/-- C7: if zero bytes are read from standard input, the proxy fails with
the empty-request error: exit status 1, nothing written to standard
output, the device never opened and no ioctl issued. -/
theorem nsm_empty_request (stdinLen : Nat) (chunks ws : List Nat) (openOk : Bool)
    (ioctlResp : Option (List Nat)) (h : readLoop chunks stdinLen 0 = 0) :
    nsmMain stdinLen chunks openOk ioctlResp ws = ⟨1, [], false, none⟩ := by
  simp [nsmMain, h]

/-- Closed witness for `nsm_empty_request` at empty standard input. -/
theorem nsm_empty_request_holds :
    nsmMain 0 [7] true (some [1]) [1] = ⟨1, [], false, none⟩ :=
  nsm_empty_request 0 [7] [1] true (some [1]) (by decide)

/-- C10: at every iteration of the request-read loop the accumulated
length satisfies `0 ≤ req_len ≤ 4096`, so the remaining-capacity
subtraction `MAX_REQUEST - req_len` never goes below zero and the final
length is still within the buffer. -/
theorem nsm_read_loop_bounded (chunks : List Nat) (stdinLen s : Nat)
    (hs : s ∈ readLoopStates chunks stdinLen 0) :
    s ≤ MAX_REQUEST ∧ (0 : Int) ≤ (MAX_REQUEST : Int) - (s : Int) ∧
      readLoop chunks stdinLen 0 ≤ MAX_REQUEST := by
  have h1 := readLoopStates_le chunks stdinLen 0 (by simp) s hs
  have h2 := readLoop_le chunks stdinLen 0 (by simp)
  refine ⟨h1, ?_, h2⟩
  simp only [MAX_REQUEST] at *
  omega

/-- Closed witness for `nsm_read_loop_bounded`. -/
theorem nsm_read_loop_bounded_holds :
    4095 ≤ MAX_REQUEST ∧ (0 : Int) ≤ (MAX_REQUEST : Int) - (4095 : Int) ∧
      readLoop [4095] 4095 0 ≤ MAX_REQUEST :=
  nsm_read_loop_bounded [4095] 4095 4095 (by decide)

/-- C4: for a request of length 1..4096 fully delivered by standard
input, with a successful device open and a single successful ioctl
reporting `resp` (length at most 16384), the proxy writes exactly the
response bytes to standard output, looping over short writes, and exits
with status 0. -/
theorem nsm_success_run (stdinLen : Nat) (chunks ws resp : List Nat)
    (h1 : 1 ≤ stdinLen) (h2 : stdinLen ≤ MAX_REQUEST)
    (hc1 : ∀ c ∈ chunks, 1 ≤ c) (hc2 : stdinLen ≤ chunks.length)
    (_hN : resp.length ≤ MAX_RESPONSE)
    (hw1 : ∀ w ∈ ws, 1 ≤ w) (hw2 : resp.length ≤ ws.length) :
    nsmMain stdinLen chunks true (some resp) ws = ⟨0, resp, true, some stdinLen⟩ := by
  have hr : readLoop chunks stdinLen 0 = stdinLen :=
    readLoop_complete chunks stdinLen 0 hc1 h2 (by omega) (by omega)
  have hw : writeLoop resp 0 ws = (resp, true) :=
    writeLoop_complete resp ws 0 hw1 (by omega) (by omega)
  have hne : ¬stdinLen = 0 := by omega
  simp [nsmMain, hr, hw, hne]

/-- Closed witness for `nsm_success_run`: a 2-byte request and a 3-byte
response delivered across short reads and short writes. -/
theorem nsm_success_run_holds :
    nsmMain 2 [1, 5] true (some [9, 8, 7]) [1, 1, 1] = ⟨0, [9, 8, 7], true, some 2⟩ :=
  nsm_success_run 2 [1, 5] [1, 1, 1] [9, 8, 7] (by decide) (by decide)
    (by decide) (by decide) (by decide) (by decide) (by decide)

/-- Counterexample to C3 as stated: a run in which the first stdout
write delivers one byte and the second errors terminates (exit 1) having
written `[5]`, a non-empty proper initial segment of the 2-byte response
`[5, 6]`. -/
theorem nsm_short_output_run :
    nsmMain 1 [1] true (some [5, 6]) [1, 0] = ⟨1, [5], true, some 1⟩ ∧
      ([5] : List Nat) ≠ [] ∧ ([5] : List Nat) ≠ [5, 6] ∧
      ([5] : List Nat) = [5, 6].take 1 := by
  decide

/-- C3 amended: a run that exits 0 has written the complete
kernel-reported response; every run's output is an initial segment of
the response (never other bytes); and every path that stops before the
write phase (empty request, failed open, failed ioctl) writes nothing.
A failed write may leave a proper non-empty initial segment behind. -/
theorem nsm_output_complete_on_success (stdinLen : Nat) (chunks ws : List Nat)
    (openOk : Bool) (io : Option (List Nat)) :
    ((nsmMain stdinLen chunks openOk io ws).exitCode = 0 →
      io = some (nsmMain stdinLen chunks openOk io ws).out) ∧
    (∀ resp, io = some resp →
      ∃ k, (nsmMain stdinLen chunks openOk io ws).out = resp.take k) ∧
    (io = none → (nsmMain stdinLen chunks openOk io ws).out = []) := by
  by_cases hq : readLoop chunks stdinLen 0 = 0
  · exact ⟨by simp [nsmMain, hq], fun resp _ => ⟨0, by simp [nsmMain, hq]⟩,
      by simp [nsmMain, hq]⟩
  · by_cases ho : openOk = false
    · exact ⟨by simp [nsmMain, hq, ho], fun resp _ => ⟨0, by simp [nsmMain, hq, ho]⟩,
        by simp [nsmMain, hq, ho]⟩
    · match io with
      | none =>
        exact ⟨by simp [nsmMain, hq, ho], fun resp h => Option.noConfusion h,
          by simp [nsmMain, hq, ho]⟩
      | some resp =>
        have hmain : nsmMain stdinLen chunks openOk (some resp) ws =
            if (writeLoop resp 0 ws).2 = true then
              ⟨0, (writeLoop resp 0 ws).1, true, some (readLoop chunks stdinLen 0)⟩
            else ⟨1, (writeLoop resp 0 ws).1, true, some (readLoop chunks stdinLen 0)⟩ := by
          simp [nsmMain, hq, ho]
        by_cases hp : (writeLoop resp 0 ws).2 = true
        · have hout := writeLoop_success_out resp ws 0 (by omega) hp
          refine ⟨fun _ => ?_, fun r hr => ?_, fun h => Option.noConfusion h⟩
          · simp [hmain, hp, hout]
          · obtain rfl : resp = r := by injection hr
            exact ⟨resp.length, by simp [hmain, hp, hout]⟩
        · refine ⟨fun h0 => ?_, fun r hr => ?_, fun h => Option.noConfusion h⟩
          · rw [hmain] at h0
            simp [hp] at h0
          · obtain rfl : resp = r := by injection hr
            obtain ⟨k, hk⟩ := writeLoop_out_take resp ws 0
            exact ⟨k, by simp [hmain, hp, hk]⟩

/-- Closed witness for `nsm_output_complete_on_success`. -/
theorem nsm_output_complete_on_success_holds :
    some ([7] : List Nat) = some (nsmMain 1 [1] true (some [7]) [1]).out :=
  (nsm_output_complete_on_success 1 [1] [1] true (some [7])).1 rfl

/-- C1 evaluated at the failing input: with 4097 bytes available on
standard input the proxy does not fail; the read loop stops at the
4096-byte capacity, the truncated request is passed to the ioctl
(`request_len = 4096`), and the run exits 0.  There is no
`RequestTooLarge` path anywhere in `nsmMain`. -/
theorem nsm_oversize_truncated :
    nsmMain 4097 [4097, 1] true (some [1]) [1] = ⟨0, [1], true, some 4096⟩ ∧
      MAX_REQUEST < 4097 := by
  constructor
  · rfl
  · decide

/-! ## Lemmas about the DuplexStreamBridge loop -/

theorem stdinPhase_closed (st : BridgeState) (ev : BridgeEvent) (h : st.stdinOpen = false) :
    stdinPhase st ev = .running st := by
  simp [stdinPhase, h]

theorem stdinPhase_update_sockRead (st : BridgeState) (ev : BridgeEvent) (x : ReadRes) :
    stdinPhase st { ev with sockRead := x } = stdinPhase st ev :=
  rfl

theorem sockPhase_update_stdinRead (st : BridgeState) (ev : BridgeEvent) (x : ReadRes) :
    sockPhase st { ev with stdinRead := x } = sockPhase st ev :=
  rfl

theorem sockPhase_preserves (st : BridgeState) (ev : BridgeEvent) :
    (outcomeState (sockPhase st ev)).sockSent = st.sockSent ∧
    (outcomeState (sockPhase st ev)).stdinOpen = st.stdinOpen := by
  unfold sockPhase
  split
  · cases ev.sockRead with
    | failure => exact ⟨rfl, rfl⟩
    | bytes data =>
      dsimp only
      split
      · exact ⟨rfl, rfl⟩
      · split <;> exact ⟨rfl, rfl⟩
  · exact ⟨rfl, rfl⟩

theorem bridgeLoop_halfclosed (evs : List BridgeEvent) :
    ∀ st : BridgeState, st.stdinOpen = false →
      (outcomeState (bridgeLoop st evs)).sockSent = st.sockSent ∧
      (outcomeState (bridgeLoop st evs)).stdinOpen = false := by
  induction evs with
  | nil => intro st h; exact ⟨rfl, h⟩
  | cons ev evs ih =>
    intro st h
    have hstep : bridgeStep st ev = sockPhase st ev := by
      unfold bridgeStep
      rw [stdinPhase_closed st ev h]
    obtain ⟨hs, ho⟩ := sockPhase_preserves st ev
    simp only [bridgeLoop, hstep]
    cases hout : sockPhase st ev with
    | running st1 =>
      rw [hout] at hs ho
      simp only [outcomeState] at hs ho
      have hih := ih st1 (ho.trans h)
      exact ⟨hih.1.trans hs, hih.2⟩
    | exit0 st1 =>
      rw [hout] at hs ho
      simp only [outcomeState] at hs ho
      exact ⟨hs, ho.trans h⟩
    | writeFailure st1 =>
      rw [hout] at hs ho
      simp only [outcomeState] at hs ho
      exact ⟨hs, ho.trans h⟩

theorem sockPhase_exit0 (st st1 : BridgeState) (ev : BridgeEvent)
    (h : sockPhase st ev = .exit0 st1) :
    ev.sockReady = true ∧ (ev.sockRead = .failure ∨ ev.sockRead = .bytes []) ∧ st1 = st := by
  unfold sockPhase at h
  by_cases hr : ev.sockReady = true
  · rw [if_pos hr] at h
    cases he : ev.sockRead with
    | failure =>
      rw [he] at h
      injection h with h1
      exact ⟨hr, Or.inl rfl, h1.symm⟩
    | bytes data =>
      rw [he] at h
      dsimp only at h
      by_cases hd : data.length = 0
      · rw [if_pos hd] at h
        injection h with h1
        have hdl : data = [] := List.length_eq_zero.mp hd
        exact ⟨hr, Or.inr (by rw [hdl]), h1.symm⟩
      · rw [if_neg hd] at h
        split at h <;> cases h
  · rw [if_neg hr] at h
    cases h

theorem stdinPhase_ne_exit0 (st st1 : BridgeState) (ev : BridgeEvent) :
    stdinPhase st ev ≠ .exit0 st1 := by
  unfold stdinPhase
  split
  · cases ev.stdinRead with
    | failure => intro h; cases h
    | bytes data =>
      dsimp only
      split
      · intro h; cases h
      · split <;> (intro h; cases h)
  · intro h; cases h

theorem bridgeStep_exit0 (st st1 : BridgeState) (ev : BridgeEvent)
    (h : bridgeStep st ev = .exit0 st1) : remoteClosed ev := by
  unfold bridgeStep at h
  cases hs : stdinPhase st ev with
  | running st2 =>
    rw [hs] at h
    obtain ⟨h1, h2, _⟩ := sockPhase_exit0 st2 st1 ev h
    exact ⟨h1, h2⟩
  | exit0 st2 => exact absurd hs (stdinPhase_ne_exit0 st st2 ev)
  | writeFailure st2 =>
    rw [hs] at h
    exact BridgeOutcome.noConfusion h

theorem bridgeLoop_exit0_origin (evs : List BridgeEvent) :
    ∀ st st1 : BridgeState, bridgeLoop st evs = .exit0 st1 →
      ∃ ev ∈ evs, remoteClosed ev := by
  induction evs with
  | nil =>
    intro st st1 h
    exact BridgeOutcome.noConfusion h
  | cons ev evs ih =>
    intro st st1 h
    simp only [bridgeLoop] at h
    cases hs : bridgeStep st ev with
    | running st2 =>
      rw [hs] at h
      obtain ⟨e, he, hr⟩ := ih st2 st1 h
      exact ⟨e, List.mem_cons_of_mem _ he, hr⟩
    | exit0 st2 =>
      exact ⟨ev, List.mem_cons_self ev evs, bridgeStep_exit0 st st2 ev hs⟩
    | writeFailure st2 =>
      rw [hs] at h
      exact BridgeOutcome.noConfusion h

theorem stdinPhase_forwards (st : BridgeState) (ev : BridgeEvent)
    (hopen : st.stdinOpen = true)
    (h : ev.stdinReady = false ∨
      (readPositive ev.stdinRead = true ∧
        writeLoop (chunkOf ev.stdinRead) 0 ev.sockWrites = (chunkOf ev.stdinRead, true))) :
    stdinPhase st ev = .running
      { st with sockSent := st.sockSent ++ (if ev.stdinReady then chunkOf ev.stdinRead else []) } := by
  by_cases hready : ev.stdinReady = true
  · rcases h with h | ⟨hp, hw⟩
    · rw [h] at hready
      cases hready
    · cases hr : ev.stdinRead with
      | failure =>
        rw [hr] at hp
        exact absurd hp (by simp [readPositive])
      | bytes data =>
        rw [hr] at hp hw
        simp only [chunkOf] at hw
        have hlen : ¬data.length = 0 := by
          intro h0
          rw [List.length_eq_zero.mp h0] at hp
          simp [readPositive] at hp
        simp [stdinPhase, hready, hopen, hr, hlen, hw, chunkOf]
  · have h0 : ev.stdinReady = false := by
      revert hready
      cases ev.stdinReady <;> simp
    simp [stdinPhase, h0]

theorem sockPhase_forwards (st : BridgeState) (ev : BridgeEvent)
    (h : ev.sockReady = false ∨
      (readPositive ev.sockRead = true ∧
        writeLoop (chunkOf ev.sockRead) 0 ev.outWrites = (chunkOf ev.sockRead, true))) :
    sockPhase st ev = .running
      { st with outBytes := st.outBytes ++ (if ev.sockReady then chunkOf ev.sockRead else []) } := by
  by_cases hready : ev.sockReady = true
  · rcases h with h | ⟨hp, hw⟩
    · rw [h] at hready
      cases hready
    · cases hr : ev.sockRead with
      | failure =>
        rw [hr] at hp
        exact absurd hp (by simp [readPositive])
      | bytes data =>
        rw [hr] at hp hw
        simp only [chunkOf] at hw
        have hlen : ¬data.length = 0 := by
          intro h0
          rw [List.length_eq_zero.mp h0] at hp
          simp [readPositive] at hp
        simp [sockPhase, hready, hr, hlen, hw, chunkOf]
  · have h0 : ev.sockReady = false := by
      revert hready
      cases ev.sockReady <;> simp
    simp [sockPhase, h0]

theorem bridgeLoop_full (evs : List BridgeEvent) :
    ∀ st : BridgeState, st.stdinOpen = true → evs.all evFull = true →
      bridgeLoop st evs =
        .running { st with
          sockSent := st.sockSent ++ stdinBytesOf evs
          outBytes := st.outBytes ++ sockBytesOf evs } := by
  induction evs with
  | nil =>
    intro st _ _
    simp [bridgeLoop, stdinBytesOf, sockBytesOf]
  | cons ev evs ih =>
    intro st hopen hfull
    obtain ⟨hev, hrest⟩ : evFull ev = true ∧ evs.all evFull = true := by
      simpa [List.all_cons] using hfull
    simp only [evFull, Bool.and_eq_true, Bool.or_eq_true, Bool.not_eq_true',
      decide_eq_true_eq] at hev
    have h1 := stdinPhase_forwards st ev hopen hev.1
    have h2 := sockPhase_forwards
      { st with sockSent := st.sockSent ++ (if ev.stdinReady then chunkOf ev.stdinRead else []) }
      ev hev.2
    have hstep : bridgeStep st ev = .running
        { st with
          sockSent := st.sockSent ++ (if ev.stdinReady then chunkOf ev.stdinRead else [])
          outBytes := st.outBytes ++ (if ev.sockReady then chunkOf ev.sockRead else []) } := by
      unfold bridgeStep
      rw [h1]
      dsimp only
      exact h2
    simp only [bridgeLoop, hstep]
    rw [ih { st with
        sockSent := st.sockSent ++ (if ev.stdinReady then chunkOf ev.stdinRead else [])
        outBytes := st.outBytes ++ (if ev.sockReady then chunkOf ev.sockRead else []) }
      hopen hrest]
    simp [stdinBytesOf, sockBytesOf, List.append_assoc]

theorem digitsVal_no_digits (s : List Char) (h : s.takeWhile isDigitC = []) :
    digitsVal s 0 = 0 := by
  cases s with
  | nil => rfl
  | cons c cs =>
    by_cases hc : isDigitC c = true
    · simp [List.takeWhile_cons, hc] at h
    · simp [digitsVal, hc]

theorem atoi_nonnumeric (s : List Char) (h : leadingDigits s = []) : atoi s = 0 := by
  unfold leadingDigits at h
  unfold atoi
  cases hd : s.dropWhile isSpaceC with
  | nil => decide
  | cons c cs =>
    unfold signStripped at h
    rw [hd] at h
    dsimp only at h
    by_cases h1 : c = '-'
    · rw [if_pos (by simp [h1])] at h
      have hz : digitsVal cs 0 = 0 := digitsVal_no_digits cs h
      have hs : atoiSigned (c :: cs) = 0 := by
        unfold atoiSigned
        dsimp only
        rw [if_pos h1, hz]
        simp
      rw [hs]
      decide
    · by_cases h2 : c = '+'
      · rw [if_pos (by simp [h2])] at h
        have hz : digitsVal cs 0 = 0 := digitsVal_no_digits cs h
        have hs : atoiSigned (c :: cs) = 0 := by
          unfold atoiSigned
          dsimp only
          rw [if_neg h1, if_pos h2, hz]
          simp
        rw [hs]
        decide
      · rw [if_neg (by simp [h1, h2])] at h
        have hz : digitsVal (c :: cs) 0 = 0 := digitsVal_no_digits _ h
        have hs : atoiSigned (c :: cs) = 0 := by
          unfold atoiSigned
          dsimp only
          rw [if_neg h1, if_neg h2, hz]
          simp
        rw [hs]
        decide

/-! ## Claim theorems for vsock-connect.c -/

/-- C2: in any state of the bridge loop — stdin still open (BRIDGING) or
already half-closed (STDIN_HALF_CLOSED) — an iteration whose socket read
comes back `n <= 0` (clean close, read error, or the read performed after
a hang-up notification) ends the loop at once with exit status 0, and
the bytes ever forwarded to the socket are exactly those of `st1`, the
state after that iteration's stdin branch: no later iteration (in
particular none carrying buffered, unforwarded local input) runs. -/
theorem bridge_remote_close_immediate (st st1 : BridgeState) (ev : BridgeEvent)
    (evs : List BridgeEvent)
    (h1 : ev.sockReady = true)
    (h2 : ev.sockRead = ReadRes.failure ∨ ev.sockRead = ReadRes.bytes [])
    (h3 : stdinPhase st ev = .running st1) :
    bridgeLoop st (ev :: evs) = .exit0 st1 ∧
    outcomeCode (bridgeLoop st (ev :: evs)) = some 0 ∧
    (outcomeState (bridgeLoop st (ev :: evs))).sockSent = st1.sockSent := by
  have hsock : sockPhase st1 ev = .exit0 st1 := by
    unfold sockPhase
    rcases h2 with h | h <;> simp [h1, h]
  have hstep : bridgeStep st ev = .exit0 st1 := by
    unfold bridgeStep
    rw [h3]
    exact hsock
  have hloop : bridgeLoop st (ev :: evs) = .exit0 st1 := by
    unfold bridgeLoop
    rw [hstep]
  exact ⟨hloop, by rw [hloop]; rfl, by rw [hloop]; rfl⟩

/-- Closed witness for `bridge_remote_close_immediate`: the remote closes
in the first iteration while a later iteration would deliver the buffered
stdin chunk `[3]`; the bridge exits 0 at once and never forwards it. -/
theorem bridge_remote_close_immediate_holds :
    bridgeLoop bridgeInit
      [⟨false, true, ReadRes.failure, ReadRes.bytes [], [], []⟩,
       ⟨true, false, ReadRes.bytes [3], ReadRes.failure, [1], []⟩] = .exit0 bridgeInit :=
  (bridge_remote_close_immediate bridgeInit bridgeInit
    ⟨false, true, ReadRes.failure, ReadRes.bytes [], [], []⟩
    [⟨true, false, ReadRes.bytes [3], ReadRes.failure, [1], []⟩]
    rfl (Or.inr rfl) rfl).1

/-- C5: with stdin open, an iteration whose stdin read returns `n <= 0`
while the socket reported nothing shuts down the write half of the
socket and marks stdin closed (`fds[0].fd = -1`, so poll never reports
it again); from the half-closed state no bytes are ever added to the
socket stream no matter what later iterations bring, a remote chunk
fully delivered is still forwarded to standard output, and the loop can
only exit cleanly through an iteration that observed the remote close. -/
theorem bridge_stdin_eof_half_close (st : BridgeState) (ev : BridgeEvent)
    (evs : List BridgeEvent)
    (h1 : st.stdinOpen = true) (h2 : ev.stdinReady = true)
    (h3 : ev.stdinRead = ReadRes.failure ∨ ev.stdinRead = ReadRes.bytes [])
    (h4 : ev.sockReady = false) :
    bridgeStep st ev = .running (halfClose st) ∧
    (halfClose st).wrShutdown = true ∧
    (halfClose st).stdinOpen = false ∧
    (outcomeState (bridgeLoop (halfClose st) evs)).sockSent = st.sockSent ∧
    (∀ data ev2, ev2.sockReady = true → ev2.sockRead = ReadRes.bytes data →
      data.length ≠ 0 → writeLoop data 0 ev2.outWrites = (data, true) →
      bridgeStep (halfClose st) ev2 =
        .running { halfClose st with outBytes := st.outBytes ++ data }) ∧
    (∀ st1, bridgeLoop (halfClose st) evs = .exit0 st1 → ∃ e ∈ evs, remoteClosed e) := by
  have hstdin : stdinPhase st ev = .running (halfClose st) := by
    unfold stdinPhase
    rcases h3 with h | h <;> simp [h1, h2, h]
  have hstep : bridgeStep st ev = .running (halfClose st) := by
    unfold bridgeStep
    rw [hstdin]
    show sockPhase (halfClose st) ev = _
    unfold sockPhase
    simp [h4]
  refine ⟨hstep, rfl, rfl, (bridgeLoop_halfclosed evs (halfClose st) rfl).1, ?_, ?_⟩
  · intro data ev2 g1 g2 g3 g4
    have hclosed : stdinPhase (halfClose st) ev2 = .running (halfClose st) :=
      stdinPhase_closed _ _ rfl
    unfold bridgeStep
    rw [hclosed]
    show sockPhase (halfClose st) ev2 = _
    unfold sockPhase
    simp [g1, g2, g3, g4, halfClose]
  · intro st1 h
    exact bridgeLoop_exit0_origin evs (halfClose st) st1 h

/-- Closed witness for `bridge_stdin_eof_half_close`: end of input on
stdin in the first iteration half-closes the freshly connected bridge. -/
theorem bridge_stdin_eof_half_close_holds :
    bridgeStep bridgeInit ⟨true, false, ReadRes.bytes [], ReadRes.failure, [], []⟩ =
      .running (halfClose bridgeInit) :=
  (bridge_stdin_eof_half_close bridgeInit
    ⟨true, false, ReadRes.bytes [], ReadRes.failure, [], []⟩ []
    rfl rfl (Or.inr rfl) rfl).1

/-- C6: over any iterations in which every read is positive and every
forwarding loop delivers its whole chunk (looping over short writes),
the bridge sends to the socket exactly the concatenation of the stdin
chunks and writes to standard output exactly the concatenation of the
socket chunks, in order; against an echo endpoint — the socket chunks
concatenate to exactly the bytes previously sent — the bytes emitted on
standard output are byte-identical to, and in the order of, the bytes
supplied on standard input. -/
theorem bridge_echo_identity (evs : List BridgeEvent)
    (hfull : evs.all evFull = true)
    (hecho : sockBytesOf evs = stdinBytesOf evs) :
    bridgeLoop bridgeInit evs =
      .running ⟨true, stdinBytesOf evs, stdinBytesOf evs, false⟩ := by
  have h := bridgeLoop_full evs bridgeInit rfl hfull
  rw [h, hecho]
  rfl

/-- Closed witness for `bridge_echo_identity`: the chunk `[1, 2]` enters
on stdin, is forwarded to the socket across two short writes, comes back
from the echo endpoint, and leaves on standard output. -/
theorem bridge_echo_identity_holds :
    bridgeLoop bridgeInit
      [⟨true, false, ReadRes.bytes [1, 2], ReadRes.failure, [1, 1], []⟩,
       ⟨false, true, ReadRes.failure, ReadRes.bytes [1, 2], [], [2]⟩] =
      .running ⟨true, [1, 2], [1, 2], false⟩ :=
  bridge_echo_identity
    [⟨true, false, ReadRes.bytes [1, 2], ReadRes.failure, [1, 1], []⟩,
     ⟨false, true, ReadRes.failure, ReadRes.bytes [1, 2], [], [2]⟩]
    (by decide) (by decide)

/-- C8: with exactly two positional arguments the bridge never reports a
usage error, whatever the argument strings hold; a non-numeric argument
(no digits after optional whitespace and sign) parses to 0 under `atoi`;
and the bridge goes on to attempt the connection at the (cid, port) pair
produced by `(unsigned int)atoi(...)` of the two strings. -/
theorem bridge_atoi_no_usage (prog a1 a2 : String) (sockOk connOk : Bool) :
    bridgeSetup [prog, a1, a2] sockOk connOk ≠ SetupResult.usageError ∧
    (leadingDigits a1.data = [] → atoi a1.data = 0) ∧
    bridgeSetup [prog, a1, a2] true true =
      SetupResult.connected (uintCast (atoi a1.data)) (uintCast (atoi a2.data)) := by
  refine ⟨?_, atoi_nonnumeric a1.data, by simp [bridgeSetup]⟩
  unfold bridgeSetup
  cases sockOk <;> cases connOk <;> simp

/-- Closed witness for `bridge_atoi_no_usage`: the non-numeric argument
string parses to 0. -/
theorem bridge_atoi_no_usage_holds : atoi "abc".data = 0 :=
  (bridge_atoi_no_usage "bridge" "abc" "7" true true).2.1 (by decide)

/-- C9: a negative (error) read result is never a distinct failure exit.
A socket read error produces the very same outcome as a clean remote
close (the `n <= 0` branch), and when it is reached the loop ends with
exit status 0; a stdin read error produces the very same outcome as end
of input, which merely half-closes the bridge and keeps the loop
running. -/
theorem bridge_read_error_policy (st : BridgeState) (ev : BridgeEvent) :
    bridgeStep st { ev with sockRead := ReadRes.failure } =
      bridgeStep st { ev with sockRead := ReadRes.bytes [] } ∧
    bridgeStep st { ev with stdinRead := ReadRes.failure } =
      bridgeStep st { ev with stdinRead := ReadRes.bytes [] } ∧
    (∀ st1, stdinPhase st { ev with sockRead := ReadRes.failure } = .running st1 →
      ev.sockReady = true →
      bridgeStep st { ev with sockRead := ReadRes.failure } = .exit0 st1 ∧
      outcomeCode (BridgeOutcome.exit0 st1) = some 0) ∧
    (st.stdinOpen = true → ev.stdinReady = true →
      stdinPhase st { ev with stdinRead := ReadRes.failure } = .running (halfClose st)) := by
  have esock : ∀ s : BridgeState, sockPhase s { ev with sockRead := ReadRes.failure } =
      sockPhase s { ev with sockRead := ReadRes.bytes [] } := by
    intro s
    unfold sockPhase
    by_cases h : ev.sockReady = true <;> simp [h]
  have estdin : stdinPhase st { ev with stdinRead := ReadRes.failure } =
      stdinPhase st { ev with stdinRead := ReadRes.bytes [] } := by
    unfold stdinPhase
    by_cases h : (ev.stdinReady && st.stdinOpen) = true <;> simp [h]
  refine ⟨?_, ?_, ?_, ?_⟩
  · unfold bridgeStep
    rw [stdinPhase_update_sockRead st ev ReadRes.failure,
      stdinPhase_update_sockRead st ev (ReadRes.bytes [])]
    cases stdinPhase st ev with
    | running s => exact esock s
    | exit0 s => rfl
    | writeFailure s => rfl
  · unfold bridgeStep
    rw [estdin]
    cases stdinPhase st { ev with stdinRead := ReadRes.bytes [] } with
    | running s =>
      exact (sockPhase_update_stdinRead s ev ReadRes.failure).trans
        (sockPhase_update_stdinRead s ev (ReadRes.bytes [])).symm
    | exit0 s => rfl
    | writeFailure s => rfl
  · intro st1 hrun hready
    refine ⟨?_, rfl⟩
    unfold bridgeStep
    rw [hrun]
    show sockPhase st1 { ev with sockRead := ReadRes.failure } = _
    unfold sockPhase
    simp [hready]
  · intro hopen hready
    unfold stdinPhase
    simp [hopen, hready]

/-- Closed witness for `bridge_read_error_policy`: a socket read error in
the first iteration of a fresh bridge exits with status 0. -/
theorem bridge_read_error_policy_holds :
    bridgeStep bridgeInit ⟨false, true, ReadRes.bytes [9], ReadRes.failure, [], []⟩ =
      .exit0 bridgeInit :=
  ((bridge_read_error_policy bridgeInit
    ⟨false, true, ReadRes.bytes [9], ReadRes.failure, [], []⟩).2.2.1
    bridgeInit rfl rfl).1

end ClawCash
